import Mathlib

/-!
Verification of the `@core/match` structural pattern-matching library
(`mod.ts`, current version: the 2024 source with the `is.Record` guard;
its `match` function spans the lines cited by the claims, 237-302).

The library exports a single matcher
`match(pattern, target): Match<T> | undefined` operating on dynamic
JavaScript values.  We shallowly embed the dynamic values, the pattern
forms, and the matcher:

* `Value` models the JavaScript data reachable by the matcher: `null`,
  `undefined`, booleans, numbers (with `NaN` kept apart, since
  `NaN === NaN` is `false`), primitive strings (as `List Char`), symbols
  (`vAtom`, compared by identity id), arrays, plain objects
  (prototype `Object.prototype`; own enumerable string-keyed fields in
  insertion order), and `vOpaque` for every other object (class
  instances, functions): an identity id plus its own fields.  Two
  `vOpaque`/`vAtom` values with the same id denote the same JavaScript
  object; `===` on them compares the id only.
* `Pattern` has one constructor per runtime branch of `match`:
  `AnonymousPlaceholder`, `RegularPlaceholder`,
  `TemplateStringPlaceholder` (greedy flag, the `strings` array, the
  nested placeholder patterns), arrays, plain objects, and the final
  `===` fallback (`litP`), which in JavaScript receives exactly the
  patterns that are neither placeholders nor arrays nor plain objects.
* Predicates (`test` type guards) are opaque host functions that may
  throw; we model them as `Value → Option Bool`, `none` meaning the
  call raised.  `jsMatch` therefore returns
  `Except Unit (Option Cap)`: `.error ()` is an exception escaping
  `match` (the code contains no try/catch), `.ok none` is the ordinary
  `undefined` failure, `.ok (some m)` a success with capture map `m`.
* The template branch of the source builds the anchored regular
  expression `^L0(.*)L1(.*)...Ln$` (non-greedy: `(.*?)`) from the
  literal fragments, escaping every regex metacharacter, and runs the
  host regex engine.  Over such fully-escaped alternation-free shapes,
  the engine performs pure backtracking: each gap tries lengths in
  increasing (lazy) or decreasing (greedy) order, `.` refusing the four
  line terminators, with the next literal required immediately after
  the gap and `$` requiring the end of the string.
  `templateDecompose` implements exactly that search.
-/

/-- A JavaScript property key as usable for placeholder names:
`string | symbol` (a numeric name is coerced to its decimal string when
the capture object is built, so it is represented post-coercion as
`kstr`). -/
inductive SKey where
  | kstr (s : String)
  | ksym (id : Nat)
deriving DecidableEq, Repr

/-- A JavaScript number as far as `===` can observe it here: `NaN` is
the unique value not equal to itself; all other numbers compare by
value (`+0 === -0`, so one zero suffices). -/
inductive JSNum where
  | nan
  | fin (q : Int)
deriving DecidableEq, Repr

/-- Dynamic JavaScript values seen by `match`. -/
inductive Value where
  | vNull
  | vUndef
  | vBool (b : Bool)
  | vNum (x : JSNum)
  | vStr (s : List Char)
  | vAtom (id : Nat)
  | vArr (elems : List Value)
  | vObj (fields : List (String × Value))
  | vOpaque (id : Nat) (fields : List (String × Value))
deriving Repr

/-- A `test` type-guard function attached to a placeholder: an opaque
host predicate.  `none` models the call throwing instead of returning a
boolean. -/
def Pred := Value → Option Bool

/-- Patterns, one constructor per branch of `match`'s runtime dispatch
(the branches are distinguished in the source by `instanceof` /
`is.ArrayOf` / prototype checks, which partition exactly as these
constructors do). -/
inductive Pattern where
  | anonP (test : Option Pred)
  | namedP (name : SKey) (test : Option Pred)
  | templateP (greedy : Bool) (lits : List (List Char)) (subs : List Pattern)
  | arrP (elems : List Pattern)
  | objP (fields : List (String × Pattern))
  | litP (v : Value)

/-- A capture object: own properties in insertion order.  A JavaScript
object never holds the same key twice. -/
abbrev Cap := List (SKey × Value)

/-- `target[k] = v` on an object: overwrite in place if the key exists
(JavaScript keeps the original insertion position), else append. -/
def setKey : Cap → SKey → Value → Cap
  | [], k, v => [(k, v)]
  | (k₀, v₀) :: rest, k, v =>
      if k₀ = k then (k, v) :: rest else (k₀, v₀) :: setKey rest k v

/-- `Object.assign(acc, m)` / `... spread`: copy every own property of
`m`, in order, onto `acc`. -/
def assignAll (acc : Cap) (m : Cap) : Cap :=
  m.foldl (fun a kv => setKey a kv.1 kv.2) acc

/-- JavaScript strict equality `===` restricted to the values above.
Distinct types never compare equal; `NaN` is equal to nothing,
including itself; symbols and opaque objects compare by identity.
Arrays and plain objects also compare by identity, but as patterns they
are routed to the array/record branches before the `===` fallback, so
the matcher can only reach `===` on them with two distinct objects:
`false`. -/
def strictEq : Value → Value → Bool
  | .vNull, .vNull => true
  | .vUndef, .vUndef => true
  | .vBool a, .vBool b => a == b
  | .vNum (.fin a), .vNum (.fin b) => a == b
  | .vStr a, .vStr b => a == b
  | .vAtom i, .vAtom j => i == j
  | .vOpaque i _, .vOpaque j _ => i == j
  | _, _ => false

/-- Characters matched by `.` in a flag-less JavaScript RegExp:
everything except the four line terminators LF, CR, LINE SEPARATOR and
PARAGRAPH SEPARATOR. -/
def isDotChar (c : Char) : Bool :=
  c ≠ Char.ofNat 10 ∧ c ≠ Char.ofNat 13 ∧ c ≠ Char.ofNat 0x2028 ∧ c ≠ Char.ofNat 0x2029

/-- Length of the longest prefix a `.*` can consume: the run of
non-line-terminator characters at the front. -/
def dotRun : List Char → Nat
  | [] => 0
  | c :: rest => if isDotChar c then dotRun rest + 1 else 0

/-- Match the literal fragment `l` (regex-escaped in the source, hence
plain text) at the front of `s`, returning the rest. -/
def stripLit? : List Char → List Char → Option (List Char)
  | [], s => some s
  | _ :: _, [] => none
  | l :: ls, c :: cs => if l = c then stripLit? ls cs else none

/-- The gap lengths a backtracking `(.*?)` (lazy: ascending) or `(.*)`
(greedy: descending) tries at the current position. -/
def gapCandidates (greedy : Bool) (s : List Char) : List Nat :=
  let r := List.range (dotRun s + 1)
  if greedy then r.reverse else r

/-- Backtracking search for `(.*)L₁(.*)L₂...(.*)Lₙ$` against `rest`:
one gap before each remaining literal, the final literal forced to end
the string (the `$` anchor), returning the gap substrings. -/
def templAux (greedy : Bool) : List (List Char) → List Char → Option (List (List Char))
  | [], rest => if rest.isEmpty then some [] else none
  | l :: ls, rest =>
      (gapCandidates greedy rest).findSome? fun k =>
        match stripLit? l (rest.drop k) with
        | some rest' => (templAux greedy ls rest').map (fun gs => rest.take k :: gs)
        | none => none

/-- `target.match(new RegExp('^' + lits.map(esc).join(sep) + '$'))`
with `sep` either `(.*)` or `(.*?)`: anchored at both ends, the first
literal forced at position 0, one capture group per separator.  Returns
the list of captured gap substrings (`m[1..]`), or `none` when the
regex does not match.  A tagged template always supplies at least one
literal fragment, so the `[]` case is unreachable. -/
def templateDecompose (greedy : Bool) (lits : List (List Char)) (s : List Char) :
    Option (List (List Char)) :=
  match lits with
  | [] => none
  | l₀ :: ls =>
      match stripLit? l₀ s with
      | some rest => templAux greedy ls rest
      | none => none

/-- Result of one `match` call: `.error ()` an exception propagating
out of `match`, `.ok none` the `undefined` failure, `.ok (some m)`
success. -/
abbrev MatchRes := Except Unit (Option Cap)

/-- `!pattern.test || pattern.test(target)` guarding a success value
`ok`: no guard or a guard returning `true` succeeds, `false` fails, a
throwing guard propagates (the call site is unguarded in the
source). -/
def runTest (test : Option Pred) (t : Value) (ok : Cap) : MatchRes :=
  match test with
  | none => .ok (some ok)
  | some p =>
      match p t with
      | none => .error ()
      | some true => .ok (some ok)
      | some false => .ok none

/-- `is.Record(target)` of unknownutil 3.x: a non-null object that is
not an array — this includes class instances and other opaque objects,
not only plain records. -/
def isRecordShaped : Value → Bool
  | .vObj _ => true
  | .vOpaque _ _ => true
  | _ => false

/-- `key in target` followed by `target[key]` on the object's own
fields. -/
def lookupField (k : String) (tfs : List (String × Value)) : Option Value :=
  (tfs.find? (fun kv => kv.1 = k)).map (fun kv => kv.2)

mutual

/-- The matcher, one equation per source branch, in source order:

1. `AnonymousPlaceholder`: empty captures iff the guard passes.
2. `RegularPlaceholder`: singleton capture iff the guard passes.
3. `TemplateStringPlaceholder`: non-strings fail; otherwise run the
   anchored regex (`templateDecompose`) and fold the sub-matches over
   the captured gaps exactly as the source loop
   `for (let i = 0; m && i < placeholders.length; i++)` does, with
   `result` starting out `undefined` and
   `result = { ...(result ?? {}), ...subResult }` on each success.
4. Arrays: fail unless the target is an array at least as long;
   then match index-wise over the pattern's length, merging with
   `Object.assign`.
5. Plain-object patterns against `is.Record`-shaped targets: every
   pattern key must exist in the target (`key in target`), sub-matches
   merge in declaration order; a non-record target falls through to
   the `===` fallback, which is `false` there.
6. Everything else: `pattern === target`. -/
def jsMatch : Pattern → Value → MatchRes
  | .anonP test, t => runTest test t []
  | .namedP name test, t => runTest test t [(name, t)]
  | .templateP greedy lits subs, t =>
      match t with
      | .vStr s =>
          match templateDecompose greedy lits s with
          | none => .ok none
          | some gaps => jsMatchGaps subs gaps none
      | _ => .ok none
  | .arrP ps, t =>
      match t with
      | .vArr vs => if ps.length ≤ vs.length then jsMatchArr ps vs [] else .ok none
      | _ => .ok none
  | .objP fs, t =>
      match t with
      | .vObj tfs => jsMatchObj fs tfs []
      | .vOpaque _ tfs => jsMatchObj fs tfs []
      | _ => .ok none
  | .litP v, t => .ok (if strictEq v t then some [] else none)

/-- The array-branch loop: `target[i]` is `undefined` past the end
(unreachable after the length guard), failures and exceptions
short-circuit, successes `Object.assign` onto the accumulator. -/
def jsMatchArr : List Pattern → List Value → Cap → MatchRes
  | [], _, acc => .ok (some acc)
  | p :: ps, vs, acc =>
      match jsMatch p (vs.headD .vUndef) with
      | .error e => .error e
      | .ok none => .ok none
      | .ok (some m) => jsMatchArr ps vs.tail (assignAll acc m)

/-- The record-branch loop over `Object.entries(pattern)`: a missing
key fails the whole match, otherwise recurse on `target[key]`. -/
def jsMatchObj : List (String × Pattern) → List (String × Value) → Cap → MatchRes
  | [], _, acc => .ok (some acc)
  | (k, p) :: fs, tfs, acc =>
      match lookupField k tfs with
      | none => .ok none
      | some tv =>
          match jsMatch p tv with
          | .error e => .error e
          | .ok none => .ok none
          | .ok (some m) => jsMatchObj fs tfs (assignAll acc m)

/-- The template-branch loop: the i-th placeholder is matched against
capture group `m[i+1]` (`undefined` beyond the group count), and
`result` — `none` until the first success is folded in — is returned
as is at the end.  In particular with zero placeholders the loop never
runs and the branch returns `undefined` even when the regex
matched. -/
def jsMatchGaps : List Pattern → List (List Char) → Option Cap → MatchRes
  | [], _, acc => .ok acc
  | p :: ps, gaps, acc =>
      match jsMatch p (match gaps with | [] => .vUndef | g :: _ => .vStr g) with
      | .error e => .error e
      | .ok none => .ok none
      | .ok (some m) => jsMatchGaps ps gaps.tail (some (assignAll (acc.getD []) m))

end

/-! ## Auxiliary notions used by the statements -/

/-- A capture name used throughout the examples. -/
def nameK : SKey := .kstr "name"

/-- A second capture name used throughout the examples. -/
def ageK : SKey := .kstr "age"

/-- A string with no line terminator: the only strings a `(.*)` /
`(.*?)` gap can capture. -/
def DotFree (l : List Char) : Prop := ∀ c ∈ l, isDotChar c = true

instance : DecidablePred DotFree := fun l =>
  inferInstanceAs (Decidable (∀ c ∈ l, isDotChar c = true))

/-- The keys of a capture object are pairwise distinct, as for every
JavaScript object. -/
def NodupK (m : Cap) : Prop := (m.map Prod.fst).Nodup

/-- A predicate that always throws instead of returning a boolean. -/
def throwPred : Pred := fun _ => none

/-- A decomposition of the string `s` as
`s = gap₁ ++ sep ++ gap₂ ++ suf` whose gaps a JavaScript `.*` could
have produced (no line terminators): exactly the ways the anchored
two-group template regex can match `s`. -/
def Split (sep suf s n a : List Char) : Prop :=
  s = n ++ sep ++ a ++ suf ∧ DotFree n ∧ DotFree a

instance (sep suf s n a : List Char) : Decidable (Split sep suf s n a) :=
  inferInstanceAs (Decidable (s = n ++ sep ++ a ++ suf ∧ DotFree n ∧ DotFree a))

/-- Position j admits a continuation `sep ++ gap ++ suf` of the rest of
the string with a line-terminator-free gap. -/
def SplitAt (sep suf s : List Char) (j : Nat) : Prop :=
  ∃ a, s.drop j = sep ++ a ++ suf ∧ DotFree a

/-- The separator literal of the claim's template, `" is "`. -/
def sepIs : List Char := " is ".data

/-- The final literal of the claim's template, `" years old"`. -/
def sufYears : List Char := " years old".data

/-- The claim's pattern: the tagged template
with literals `["", " is ", " years old"]` and the two unguarded named
placeholders `name` and `age`, greedy or not. -/
def agePattern (g : Bool) : Pattern :=
  .templateP g [[], sepIs, sufYears] [.namedP nameK none, .namedP ageK none]

/-- The JavaScript values that can appear as `Literal` patterns: a
pattern that is an array or a plain object is routed to the
array/record branches, so the `===` fallback receives exactly the
others. -/
def isLiteralValue : Value → Bool
  | .vArr _ => false
  | .vObj _ => false
  | _ => true


/-! ## Capture-map lemmas -/

theorem setKey_map_fst (acc : Cap) (k : SKey) (v : Value) :
    (setKey acc k v).map Prod.fst =
      if k ∈ acc.map Prod.fst then acc.map Prod.fst else acc.map Prod.fst ++ [k] := by
  induction acc with
  | nil => simp [setKey]
  | cons kv rest ih =>
      obtain ⟨k₀, v₀⟩ := kv
      by_cases h : k₀ = k
      · subst h
        simp [setKey]
      · simp only [setKey, if_neg h, List.map_cons, ih]
        by_cases hmem : k ∈ rest.map Prod.fst
        · simp [hmem, Ne.symm h]
        · simp [hmem, Ne.symm h]

theorem nodupK_setKey {acc : Cap} (h : NodupK acc) (k : SKey) (v : Value) :
    NodupK (setKey acc k v) := by
  unfold NodupK at *
  rw [setKey_map_fst]
  by_cases hmem : k ∈ acc.map Prod.fst
  · simpa [hmem] using h
  · simp only [hmem, if_false]
    exact List.Nodup.append h (List.nodup_singleton k) (by
      intro a ha hb
      simp only [List.mem_singleton] at hb
      exact hmem (hb ▸ ha))

theorem nodupK_assignAll {m acc : Cap} (h : NodupK acc) : NodupK (assignAll acc m) := by
  induction m generalizing acc with
  | nil => simpa [assignAll] using h
  | cons kv rest ih =>
      simpa [assignAll, List.foldl_cons] using
        ih (nodupK_setKey h kv.1 kv.2)

theorem setKey_of_not_mem {acc : Cap} {k : SKey} (h : k ∉ acc.map Prod.fst) (v : Value) :
    setKey acc k v = acc ++ [(k, v)] := by
  induction acc with
  | nil => simp [setKey]
  | cons kv rest ih =>
      obtain ⟨k₀, v₀⟩ := kv
      simp only [List.map_cons, List.mem_cons] at h
      push_neg at h
      simp [setKey, Ne.symm h.1, ih h.2]

theorem assignAll_disjoint {m acc : Cap} (hm : NodupK m)
    (hd : ∀ k ∈ m.map Prod.fst, k ∉ acc.map Prod.fst) :
    assignAll acc m = acc ++ m := by
  induction m generalizing acc with
  | nil => simp [assignAll]
  | cons kv rest ih =>
      obtain ⟨k, v⟩ := kv
      unfold NodupK at hm
      simp only [List.map_cons, List.nodup_cons] at hm
      have hk : k ∉ acc.map Prod.fst := hd k (by simp)
      have step : assignAll acc ((k, v) :: rest) = assignAll (acc ++ [(k, v)]) rest := by
        simp [assignAll, List.foldl_cons, setKey_of_not_mem hk]
      rw [step, ih hm.2]
      · simp
      · intro k' hk' hmem
        simp only [List.map_append, List.mem_append, List.map_cons] at hmem
        rcases hmem with h | h
        · exact hd k' (by simp [hk']) h
        · simp only [List.map_nil, List.mem_singleton] at h
          exact hm.1 (h ▸ hk')

theorem assignAll_nil {m : Cap} (hm : NodupK m) : assignAll [] m = m := by
  simpa using assignAll_disjoint hm (by simp)

theorem nodupK_nil : NodupK [] := by simp [NodupK]

theorem runTest_nodup {test : Option Pred} {t : Value} {ok : Cap} {m : Cap}
    (hok : NodupK ok) (h : runTest test t ok = .ok (some m)) : NodupK m := by
  unfold runTest at h
  split at h
  · simp only [Except.ok.injEq, Option.some.injEq] at h
    exact h ▸ hok
  · split at h
    · simp at h
    · simp only [Except.ok.injEq, Option.some.injEq] at h
      exact h ▸ hok
    · simp at h

theorem jsMatchArr_nodup :
    ∀ (ps : List Pattern) (vs : List Value) (acc : Cap) (m : Cap),
      NodupK acc → jsMatchArr ps vs acc = .ok (some m) → NodupK m := by
  intro ps
  induction ps with
  | nil =>
      intro vs acc m hacc h
      simp only [jsMatchArr, Except.ok.injEq, Option.some.injEq] at h
      exact h ▸ hacc
  | cons p ps ih =>
      intro vs acc m hacc h
      simp only [jsMatchArr] at h
      split at h
      · simp at h
      · simp at h
      · exact ih vs.tail _ m (nodupK_assignAll hacc) h

theorem jsMatchObj_nodup :
    ∀ (fs : List (String × Pattern)) (tfs : List (String × Value)) (acc : Cap) (m : Cap),
      NodupK acc → jsMatchObj fs tfs acc = .ok (some m) → NodupK m := by
  intro fs
  induction fs with
  | nil =>
      intro tfs acc m hacc h
      simp only [jsMatchObj, Except.ok.injEq, Option.some.injEq] at h
      exact h ▸ hacc
  | cons f fs ih =>
      intro tfs acc m hacc h
      obtain ⟨k, p⟩ := f
      simp only [jsMatchObj] at h
      split at h
      · simp at h
      · split at h
        · simp at h
        · simp at h
        · exact ih tfs _ m (nodupK_assignAll hacc) h

theorem jsMatchGaps_nodup :
    ∀ (subs : List Pattern) (gaps : List (List Char)) (acc : Option Cap) (m : Cap),
      (∀ a, acc = some a → NodupK a) → jsMatchGaps subs gaps acc = .ok (some m) → NodupK m := by
  intro subs
  induction subs with
  | nil =>
      intro gaps acc m hacc h
      simp only [jsMatchGaps, Except.ok.injEq] at h
      exact hacc m h
  | cons p ps ih =>
      intro gaps acc m hacc h
      simp only [jsMatchGaps] at h
      split at h
      · simp at h
      · simp at h
      · refine ih gaps.tail _ m ?_ h
        intro a ha
        cases ha
        refine nodupK_assignAll ?_
        match acc with
        | none => exact nodupK_nil
        | some a₀ => exact hacc a₀ rfl

/-- Every capture object `match` produces has pairwise-distinct keys,
like every JavaScript object. -/
theorem jsMatch_nodup {p : Pattern} {t : Value} {m : Cap}
    (h : jsMatch p t = .ok (some m)) : NodupK m := by
  match p with
  | .anonP test => exact runTest_nodup nodupK_nil h
  | .namedP name test => exact runTest_nodup (by simp [NodupK]) h
  | .templateP greedy lits subs =>
      simp only [jsMatch] at h
      split at h
      · split at h
        · simp at h
        · exact jsMatchGaps_nodup subs _ none m (by intro a ha; cases ha) h
      · simp at h
  | .arrP ps =>
      simp only [jsMatch] at h
      split at h
      · split at h
        · exact jsMatchArr_nodup ps _ [] m nodupK_nil h
        · simp at h
      · simp at h
  | .objP fs =>
      simp only [jsMatch] at h
      split at h
      · exact jsMatchObj_nodup fs _ [] m nodupK_nil h
      · exact jsMatchObj_nodup fs _ [] m nodupK_nil h
      · simp at h
  | .litP v =>
      simp only [jsMatch] at h
      split at h
      · simp only [Except.ok.injEq, Option.some.injEq] at h
        exact h ▸ nodupK_nil
      · simp at h

/-! ## String and backtracking-order lemmas -/

theorem stripLit_iff : ∀ (l s r : List Char), stripLit? l s = some r ↔ s = l ++ r := by
  intro l
  induction l with
  | nil => intro s r; simp [stripLit?, eq_comm]
  | cons c cs ih =>
      intro s r
      match s with
      | [] => simp [stripLit?]
      | d :: ds =>
          simp only [stripLit?]
          by_cases h : c = d
          · subst h
            rw [if_pos rfl, ih]
            simp
          · rw [if_neg h]
            simp [Ne.symm h]

theorem dotRun_le_length : ∀ s : List Char, dotRun s ≤ s.length := by
  intro s
  induction s with
  | nil => simp [dotRun]
  | cons c cs ih =>
      simp only [dotRun, List.length_cons]
      split
      · omega
      · omega

theorem le_dotRun_iff : ∀ (s : List Char) (k : Nat),
    k ≤ dotRun s ↔ k ≤ s.length ∧ DotFree (s.take k) := by
  intro s
  induction s with
  | nil =>
      intro k
      simp [dotRun, DotFree]
  | cons c cs ih =>
      intro k
      match k with
      | 0 => simp [DotFree]
      | k + 1 =>
          simp only [dotRun]
          by_cases hc : isDotChar c
          · rw [if_pos hc]
            rw [Nat.succ_le_succ_iff, ih]
            simp only [List.length_cons, Nat.succ_le_succ_iff, List.take_succ_cons]
            constructor
            · rintro ⟨hlen, hdf⟩
              refine ⟨hlen, ?_⟩
              intro x hx
              rcases List.mem_cons.mp hx with rfl | hx
              · exact hc
              · exact hdf x hx
            · rintro ⟨hlen, hdf⟩
              exact ⟨hlen, fun x hx => hdf x (List.mem_cons_of_mem _ hx)⟩
          · rw [if_neg hc]
            constructor
            · omega
            · rintro ⟨_, hdf⟩
              exact absurd (hdf c (by simp [List.take_succ_cons])) (by simpa using hc)

theorem findSome?_first {α : Type} {F : Nat → Option α} {l₁ l₂ : List Nat} {k : Nat} {b : α}
    (h₁ : ∀ j ∈ l₁, F j = none) (hk : F k = some b) :
    List.findSome? F (l₁ ++ k :: l₂) = some b := by
  rw [List.findSome?_append, List.findSome?_eq_none_iff.mpr h₁]
  simp [List.findSome?_cons, hk]

theorem findSome?_unique {α : Type} {F : Nat → Option α} {l : List Nat} {j : Nat} {b : α}
    (hj : j ∈ l) (hFj : F j = some b) (huniq : ∀ i ∈ l, i ≠ j → F i = none) :
    List.findSome? F l = some b := by
  induction l with
  | nil => cases hj
  | cons a l ih =>
      by_cases ha : a = j
      · subst ha
        simp [List.findSome?_cons, hFj]
      · have hnone : F a = none := huniq a (by simp) ha
        simp only [List.findSome?_cons, hnone]
        refine ih ?_ ?_
        · rcases List.mem_cons.mp hj with h | h
          · exact absurd h.symm ha
          · exact h
        · intro i hi hij
          exact huniq i (List.mem_cons_of_mem _ hi) hij

theorem templAux_nil (g : Bool) (rest : List Char) :
    templAux g [] rest = if rest.isEmpty then some [] else none := rfl

theorem templAux_cons (g : Bool) (l : List Char) (ls : List (List Char)) (rest : List Char) :
    templAux g (l :: ls) rest =
      (gapCandidates g rest).findSome? fun k =>
        match stripLit? l (rest.drop k) with
        | some rest' => (templAux g ls rest').map (fun gs => rest.take k :: gs)
        | none => none := rfl

theorem mem_gapCandidates {g : Bool} {s : List Char} {j : Nat} :
    j ∈ gapCandidates g s ↔ j ≤ dotRun s := by
  unfold gapCandidates
  cases g <;> simp [List.mem_range, Nat.lt_succ_iff]

/-- The one-literal tail `(.*)lit$` matches `r` exactly by splitting
off the unique line-terminator-free gap before a final `lit`. -/
theorem templAux_single {g : Bool} {lit r : List Char} {gs : List (List Char)} :
    templAux g [lit] r = some gs ↔ ∃ a, gs = [a] ∧ r = a ++ lit ∧ DotFree a := by
  have hF : ∀ j : Nat,
      (match stripLit? lit (r.drop j) with
        | some rest' => (templAux g [] rest').map (fun gs => r.take j :: gs)
        | none => none)
      = if r.drop j = lit then some [r.take j] else none := by
    intro j
    rcases hstrip : stripLit? lit (r.drop j) with _ | rest'
    · simp only [hstrip]
      rw [if_neg]
      intro hdrop
      have : stripLit? lit (r.drop j) = some [] :=
        (stripLit_iff _ _ _).mpr (by rw [hdrop]; simp)
      rw [hstrip] at this
      cases this
    · simp only [hstrip]
      have hr : r.drop j = lit ++ rest' := (stripLit_iff _ _ _).mp hstrip
      match rest' with
      | [] =>
          rw [templAux_nil]
          have hdl : List.drop j r = lit := by rw [hr, List.append_nil]
          rw [if_pos hdl]
          simp
      | x :: xs =>
          rw [templAux_nil]
          have hne : List.drop j r ≠ lit := by
            intro hdrop
            rw [hdrop] at hr
            have := congrArg List.length hr
            simp at this
          rw [if_neg hne]
          simp
  rw [templAux_cons]
  have hfun :
      (fun k : Nat =>
        (match stripLit? lit (r.drop k) with
          | some rest' => (templAux g [] rest').map (fun gs => r.take k :: gs)
          | none => none))
      = fun k : Nat => if r.drop k = lit then some [r.take k] else none := funext hF
  rw [hfun]
  constructor
  · intro h
    rcases List.findSome?_eq_some_iff.mp h with ⟨l₁, j, l₂, hl, hj, _⟩
    have hjmem : j ∈ gapCandidates g r := by rw [hl]; simp
    have hjd : j ≤ dotRun r := mem_gapCandidates.mp hjmem
    by_cases hdrop : r.drop j = lit
    · rw [if_pos hdrop] at hj
      refine ⟨r.take j, ?_, ?_, ?_⟩
      · simpa using hj.symm
      · conv_lhs => rw [(List.take_append_drop j r).symm]
        rw [hdrop]
      · exact ((le_dotRun_iff r j).mp hjd).2
    · rw [if_neg hdrop] at hj
      cases hj
  · rintro ⟨a, rfl, hr, ha⟩
    have hlen : r.length = a.length + lit.length := by rw [hr]; simp
    have htake : r.take a.length = a := by rw [hr]; exact List.take_left a lit
    have hdrop : r.drop a.length = lit := by rw [hr]; exact List.drop_left a lit
    have hmem : a.length ∈ gapCandidates g r := by
      rw [mem_gapCandidates, le_dotRun_iff]
      exact ⟨by omega, by rw [htake]; exact ha⟩
    refine findSome?_unique hmem ?_ ?_
    · rw [if_pos hdrop, htake]
    · intro i hi hij
      rw [if_neg]
      intro hdi
      have hid : i ≤ dotRun r := mem_gapCandidates.mp hi
      have : i ≤ r.length := le_trans hid (dotRun_le_length r)
      have : (r.drop i).length = lit.length := by rw [hdi]
      rw [List.length_drop] at this
      exact hij (by omega)

theorem pairF_some {g : Bool} {sep suf s a : List Char} {j : Nat}
    (hj : s.drop j = sep ++ a ++ suf) (ha : DotFree a) :
    (match stripLit? sep (s.drop j) with
      | some rest' => (templAux g [suf] rest').map (fun gs => s.take j :: gs)
      | none => none) = some [s.take j, a] := by
  have hs : stripLit? sep (s.drop j) = some (a ++ suf) :=
    (stripLit_iff _ _ _).mpr (by rw [hj]; simp)
  simp only [hs]
  have hone : templAux g [suf] (a ++ suf) = some [a] :=
    templAux_single.mpr ⟨a, rfl, rfl, ha⟩
  rw [hone]
  rfl

theorem pairF_none {g : Bool} {sep suf s : List Char} {j : Nat}
    (hnot : ¬ SplitAt sep suf s j) :
    (match stripLit? sep (s.drop j) with
      | some rest' => (templAux g [suf] rest').map (fun gs => s.take j :: gs)
      | none => none) = none := by
  rcases hstrip : stripLit? sep (s.drop j) with _ | rest'
  · simp only [hstrip]
  · simp only [hstrip]
    rcases h2 : templAux g [suf] rest' with _ | gs
    · simp
    · rcases templAux_single.mp h2 with ⟨b, _, hb, hbf⟩
      exfalso
      refine hnot ⟨b, ?_, hbf⟩
      rw [(stripLit_iff _ _ _).mp hstrip, hb]
      simp

/-- With lazy gaps, the two-group template regex settles on the least
feasible first-gap length. -/
theorem templAux_pair_lazy {sep suf s a : List Char} {k : Nat}
    (hkd : k ≤ dotRun s)
    (hsplit : s.drop k = sep ++ a ++ suf) (ha : DotFree a)
    (hmin : ∀ j < k, ¬ SplitAt sep suf s j) :
    templAux false [sep, suf] s = some [s.take k, a] := by
  rw [templAux_cons]
  have hdecomp : gapCandidates false s =
      List.range k ++ k :: (List.range (dotRun s - k)).map (fun i => k + Nat.succ i) := by
    unfold gapCandidates
    simp only [Bool.false_eq_true, if_false]
    have h1 : dotRun s + 1 = k + (dotRun s - k + 1) := by omega
    rw [h1, List.range_add, List.range_succ_eq_map]
    simp [List.map_cons, List.map_map, Function.comp]
  rw [hdecomp]
  exact findSome?_first
    (fun j hj => pairF_none (hmin j (List.mem_range.mp hj)))
    (pairF_some hsplit ha)

/-- With greedy gaps, the two-group template regex settles on the
greatest feasible first-gap length. -/
theorem templAux_pair_greedy {sep suf s a : List Char} {k : Nat}
    (hkd : k ≤ dotRun s)
    (hsplit : s.drop k = sep ++ a ++ suf) (ha : DotFree a)
    (hmax : ∀ j, k < j → j ≤ dotRun s → ¬ SplitAt sep suf s j) :
    templAux true [sep, suf] s = some [s.take k, a] := by
  rw [templAux_cons]
  have hdecomp : gapCandidates true s =
      ((List.range (dotRun s - k)).map (fun i => k + 1 + i)).reverse
        ++ k :: (List.range k).reverse := by
    unfold gapCandidates
    simp only [if_true]
    have h1 : dotRun s + 1 = (k + 1) + (dotRun s - k) := by omega
    rw [h1, List.range_add, List.reverse_append, List.range_succ, List.reverse_append]
    simp
  rw [hdecomp]
  refine findSome?_first ?_ (pairF_some hsplit ha)
  intro j hj
  rw [List.mem_reverse, List.mem_map] at hj
  obtain ⟨i, hi, rfl⟩ := hj
  rw [List.mem_range] at hi
  exact pairF_none (hmax (k + 1 + i) (by omega) (by omega))

theorem templateDecompose_cons_nil (g : Bool) (ls : List (List Char)) (s : List Char) :
    templateDecompose g ([] :: ls) s = templAux g ls s := rfl

/-- Evaluation of the whole matcher on a two-placeholder template
(`name`, `age`, no guards) once the regex has produced its two capture
groups. -/
theorem jsMatch_template_two {g : Bool} {sep suf S n a : List Char}
    (hd : templateDecompose g [[], sep, suf] S = some [n, a]) :
    jsMatch (.templateP g [[], sep, suf] [.namedP nameK none, .namedP ageK none]) (.vStr S)
      = .ok (some [(nameK, .vStr n), (ageK, .vStr a)]) := by
  have h1 : jsMatch (.templateP g [[], sep, suf] [.namedP nameK none, .namedP ageK none])
        (.vStr S)
      = (match templateDecompose g [[], sep, suf] S with
          | none => (.ok none : MatchRes)
          | some gaps => jsMatchGaps [.namedP nameK none, .namedP ageK none] gaps none) := rfl
  rw [h1, hd]
  rfl

theorem split_facts {n a S : List Char} (h : Split sepIs sufYears S n a) :
    SplitAt sepIs sufYears S n.length ∧ n.length ≤ dotRun S ∧ S.take n.length = n := by
  obtain ⟨hS, hn, ha⟩ := h
  have hS' : S = n ++ (sepIs ++ (a ++ sufYears)) := by rw [hS]; simp [List.append_assoc]
  have htk : S.take n.length = n := by rw [hS']; exact List.take_left n _
  have hdr : S.drop n.length = sepIs ++ a ++ sufYears := by
    rw [hS', List.drop_left n _]
    simp [List.append_assoc]
  refine ⟨⟨a, hdr, ha⟩, ?_, htk⟩
  rw [le_dotRun_iff]
  constructor
  · rw [hS']; simp
  · rw [htk]; exact hn

/-- C2 (amended).  For the template with literals
`["", " is ", " years old"]` and unguarded placeholders `name`, `age`:
whenever the string value admits at least two distinct anchored
decompositions `S = name ++ " is " ++ age ++ " years old"` with
line-terminator-free gaps, matching with `greedy = true` and with
`greedy = false` both succeed but produce different capture maps, the
first gap being the shortest feasible one under `greedy = false` and
the longest feasible one under `greedy = true`.  (The original claim
quantified over every value that ends with `" years old"` and contains
`" is "` twice; the counterexample shows such a value can admit only
one feasible decomposition, making the two modes agree.) -/
theorem c2_greedy_vs_lazy_divergence (S n₁ a₁ n₂ a₂ : List Char)
    (h₁ : Split sepIs sufYears S n₁ a₁) (h₂ : Split sepIs sufYears S n₂ a₂)
    (hne : n₁ ≠ n₂) :
    ∃ nL aL nG aG,
      jsMatch (agePattern false) (.vStr S)
          = .ok (some [(nameK, .vStr nL), (ageK, .vStr aL)]) ∧
      jsMatch (agePattern true) (.vStr S)
          = .ok (some [(nameK, .vStr nG), (ageK, .vStr aG)]) ∧
      Split sepIs sufYears S nL aL ∧ Split sepIs sufYears S nG aG ∧
      nL.length < nG.length ∧
      [(nameK, Value.vStr nL), (ageK, Value.vStr aL)]
        ≠ [(nameK, Value.vStr nG), (ageK, Value.vStr aG)] ∧
      (∀ n a, Split sepIs sufYears S n a → nL.length ≤ n.length ∧ n.length ≤ nG.length) := by
  classical
  obtain ⟨hQ₁, hd₁, htk₁⟩ := split_facts h₁
  obtain ⟨hQ₂, hd₂, htk₂⟩ := split_facts h₂
  have hk12 : n₁.length ≠ n₂.length := by
    intro h
    exact hne (by rw [← htk₁, h, htk₂])
  have hex : ∃ j, SplitAt sepIs sufYears S j := ⟨n₁.length, hQ₁⟩
  set kmin := Nat.find hex with hkmin
  have hQmin : SplitAt sepIs sufYears S kmin := Nat.find_spec hex
  have hmin₁ : kmin ≤ n₁.length := Nat.find_min' hex hQ₁
  have hmin₂ : kmin ≤ n₂.length := Nat.find_min' hex hQ₂
  have hminlt : ∀ j < kmin, ¬ SplitAt sepIs sufYears S j := fun j hj => Nat.find_min hex hj
  have hkmind : kmin ≤ dotRun S := le_trans hmin₁ hd₁
  obtain ⟨aL, hdropL, haL⟩ := hQmin
  have hlazy := templAux_pair_lazy hkmind hdropL haL hminlt
  set kmax := Nat.findGreatest (SplitAt sepIs sufYears S) (dotRun S) with hkmax
  have hQmax : SplitAt sepIs sufYears S kmax := Nat.findGreatest_spec hd₁ hQ₁
  have hmax₁ : n₁.length ≤ kmax := Nat.le_findGreatest hd₁ hQ₁
  have hmax₂ : n₂.length ≤ kmax := Nat.le_findGreatest hd₂ hQ₂
  have hkmaxd : kmax ≤ dotRun S := Nat.findGreatest_le (dotRun S)
  have hmaxgt : ∀ j, kmax < j → j ≤ dotRun S → ¬ SplitAt sepIs sufYears S j :=
    fun j hj hjd => Nat.findGreatest_is_greatest hj hjd
  obtain ⟨aG, hdropG, haG⟩ := hQmax
  have hgreedy := templAux_pair_greedy hkmaxd hdropG haG hmaxgt
  have hlt : kmin < kmax := by omega
  have hSlen : dotRun S ≤ S.length := dotRun_le_length S
  have hlenL : (S.take kmin).length = kmin := by
    rw [List.length_take]; omega
  have hlenG : (S.take kmax).length = kmax := by
    rw [List.length_take]; omega
  have hSplitL : Split sepIs sufYears S (S.take kmin) aL := by
    refine ⟨?_, ((le_dotRun_iff S kmin).mp hkmind).2, haL⟩
    conv_lhs => rw [← List.take_append_drop kmin S]
    rw [hdropL]
    simp [List.append_assoc]
  have hSplitG : Split sepIs sufYears S (S.take kmax) aG := by
    refine ⟨?_, ((le_dotRun_iff S kmax).mp hkmaxd).2, haG⟩
    conv_lhs => rw [← List.take_append_drop kmax S]
    rw [hdropG]
    simp [List.append_assoc]
  refine ⟨S.take kmin, aL, S.take kmax, aG, ?_, ?_, hSplitL, hSplitG, ?_, ?_, ?_⟩
  · exact jsMatch_template_two ((templateDecompose_cons_nil false [sepIs, sufYears] S).trans hlazy)
  · exact jsMatch_template_two ((templateDecompose_cons_nil true [sepIs, sufYears] S).trans hgreedy)
  · omega
  · intro hEq
    have heq2 : S.take kmin = S.take kmax := by
      simp only [List.cons.injEq, Prod.mk.injEq, Value.vStr.injEq] at hEq
      exact hEq.1.2
    have := congrArg List.length heq2
    omega
  · intro n a hsp
    obtain ⟨hQ, hd, _⟩ := split_facts hsp
    rw [hlenL, hlenG]
    exact ⟨Nat.find_min' hex hQ, Nat.le_findGreatest hd hQ⟩

/-- C2 counterexample.  The value `"a is b is years old"` ends with
`" years old"` and contains `" is "` twice (the conjuncts exhibit both
occurrences), yet only the first occurrence leaves room for the
`" years old"` suffix, so there is a single feasible decomposition and
greedy and non-greedy matching return the *same* capture map
`(name := "a", age := "b is")` — refuting the claim that every such
value yields different captures under the two modes. -/
theorem c2_counterexample_same_captures :
    ("a is b is years old".data = "a is b is".data ++ sufYears) ∧
    ("a is b is years old".data = "a".data ++ sepIs ++ "b is years old".data) ∧
    ("a is b is years old".data = "a is b".data ++ sepIs ++ "years old".data) ∧
    jsMatch (agePattern false) (.vStr "a is b is years old".data)
      = .ok (some [(nameK, .vStr "a".data), (ageK, .vStr "b is".data)]) ∧
    jsMatch (agePattern true) (.vStr "a is b is years old".data)
      = .ok (some [(nameK, .vStr "a".data), (ageK, .vStr "b is".data)]) :=
  ⟨by decide, by decide, by decide, rfl, rfl⟩

/-- Witness for C2 (amended): `"a is b is 1 years old"` admits the two
decompositions `("a", "b is 1")` and `("a is b", "1")`, so the two
modes diverge there. -/
theorem c2_greedy_vs_lazy_divergence_witness :
    ∃ nL aL nG aG,
      jsMatch (agePattern false) (.vStr "a is b is 1 years old".data)
          = .ok (some [(nameK, .vStr nL), (ageK, .vStr aL)]) ∧
      jsMatch (agePattern true) (.vStr "a is b is 1 years old".data)
          = .ok (some [(nameK, .vStr nG), (ageK, .vStr aG)]) ∧
      Split sepIs sufYears "a is b is 1 years old".data nL aL ∧
      Split sepIs sufYears "a is b is 1 years old".data nG aG ∧
      nL.length < nG.length ∧
      [(nameK, Value.vStr nL), (ageK, Value.vStr aL)]
        ≠ [(nameK, Value.vStr nG), (ageK, Value.vStr aG)] ∧
      (∀ n a, Split sepIs sufYears "a is b is 1 years old".data n a →
        nL.length ≤ n.length ∧ n.length ≤ nG.length) :=
  c2_greedy_vs_lazy_divergence "a is b is 1 years old".data
    "a".data "b is 1".data "a is b".data "1".data
    (by decide) (by decide) (by decide)

/-! ## Remaining helper lemmas -/

theorem jsMatchArr_take :
    ∀ (ps : List Pattern) (vs : List Value) (acc : Cap), ps.length ≤ vs.length →
      jsMatchArr ps vs acc = jsMatchArr ps (vs.take ps.length) acc := by
  intro ps
  induction ps with
  | nil => intro vs acc _; rfl
  | cons p ps ih =>
      intro vs acc hlen
      match vs with
      | [] => simp at hlen
      | v :: vs' =>
          simp only [List.length_cons, List.take_succ_cons]
          simp only [jsMatchArr, List.headD_cons, List.tail_cons]
          cases jsMatch p v with
          | error e => rfl
          | ok o =>
              cases o with
              | none => rfl
              | some m =>
                  exact ih vs' (assignAll acc m) (by simpa using hlen)

theorem jsMatchObj_succeeds :
    ∀ (fs : List (String × Pattern)) (tfs : List (String × Value)) (acc : Cap),
      (∀ kp ∈ fs, ∃ tv, lookupField kp.1 tfs = some tv ∧
        ∃ m, jsMatch kp.2 tv = .ok (some m)) →
      ∃ m, jsMatchObj fs tfs acc = .ok (some m) := by
  intro fs
  induction fs with
  | nil => intro tfs acc _; exact ⟨acc, rfl⟩
  | cons kp fs ih =>
      intro tfs acc hall
      obtain ⟨k, p⟩ := kp
      obtain ⟨tv, hlk, m₁, hm₁⟩ := hall (k, p) (by simp)
      simp only [jsMatchObj, hlk, hm₁]
      exact ih tfs (assignAll acc m₁) (fun kp hkp => hall kp (List.mem_cons_of_mem _ hkp))

/-! ## Claim theorems -/

/-- C1.  Evidence of a code bug in the zero-placeholder template case:
for the pure literal template `["hello "]` (no placeholders,
`greedy = false`), the anchored regex does match the value `"hello "`
exactly (first conjunct: the decomposition succeeds with no capture
groups), yet `match` returns `undefined` (second conjunct), because the
loop variable `result` is declared without an initial value and is only
ever assigned inside the placeholder loop, which runs zero times.  The
claim (and the spec, §4.3.5) say this call must succeed with the empty
capture map, as it did in the earlier version of `mod.ts` still present
in the repository, which wrote `if (!m) return undefined; const result
= {}`.  Against `"hello world"` the match fails as claimed (third
conjunct). -/
theorem c1_pure_literal_template_code_bug :
    templateDecompose false ["hello ".data] "hello ".data = some [] ∧
    jsMatch (.templateP false ["hello ".data] []) (.vStr "hello ".data) = .ok none ∧
    jsMatch (.templateP false ["hello ".data] []) (.vStr "hello world".data) = .ok none :=
  ⟨rfl, rfl, rfl⟩

/-- C9.  An unguarded named placeholder captures any value as
`(name := value)`; with a guard that returns `b` on the value, it
succeeds with that singleton capture iff `b = true` and fails
otherwise. -/
theorem c9_named_placeholder_capture (k : SKey) (v : Value) :
    jsMatch (.namedP k none) v = .ok (some [(k, v)]) ∧
    ∀ (p : Pred) (b : Bool), p v = some b →
      jsMatch (.namedP k (some p)) v = .ok (if b then some [(k, v)] else none) := by
  refine ⟨rfl, ?_⟩
  intro p b hp
  cases b <;> simp [jsMatch, runTest, hp]

/-- Witness for C9 at the placeholder `a`, the value `"hello"`, and a
guard returning `true`. -/
theorem c9_named_placeholder_capture_witness :
    jsMatch (.namedP (.kstr "a") none) (.vStr "hello".data)
        = .ok (some [(.kstr "a", .vStr "hello".data)]) ∧
    jsMatch (.namedP (.kstr "a") (some (fun _ => some true))) (.vStr "hello".data)
        = .ok (some [(.kstr "a", .vStr "hello".data)]) :=
  ⟨(c9_named_placeholder_capture (.kstr "a") (.vStr "hello".data)).1,
   (c9_named_placeholder_capture (.kstr "a") (.vStr "hello".data)).2
      (fun _ => some true) true rfl⟩

/-- C10.  A `Literal` pattern holding `NaN` matches nothing, not even
`NaN` itself: the fallback compares with `===` and `NaN === NaN` is
`false`. -/
theorem c10_nan_literal_never_matches (t : Value) :
    jsMatch (.litP (.vNum .nan)) t = .ok none := by
  match t with
  | .vNull => rfl
  | .vUndef => rfl
  | .vBool b => rfl
  | .vNum .nan => rfl
  | .vNum (.fin q) => rfl
  | .vStr s => rfl
  | .vAtom i => rfl
  | .vArr es => rfl
  | .vObj tfs => rfl
  | .vOpaque i tfs => rfl

/-- C4.  The `Literal` fallback succeeds (with the empty capture map)
exactly when pattern and value are `===`-identical, and fails
otherwise; two structurally-equal but independently-constructed opaque
objects (distinct identities, identical fields) never match, while an
object matches itself; `null` and `undefined` never match each
other. -/
theorem c4_literal_strict_identity :
    (∀ v t : Value, isLiteralValue v = true →
      (jsMatch (.litP v) t = .ok (some []) ↔ strictEq v t = true)) ∧
    (∀ v t : Value, strictEq v t = false → jsMatch (.litP v) t = .ok none) ∧
    (∀ (i j : Nat) (fs gs : List (String × Value)), i ≠ j →
      jsMatch (.litP (.vOpaque i fs)) (.vOpaque j gs) = .ok none) ∧
    (∀ (i : Nat) (fs : List (String × Value)),
      jsMatch (.litP (.vOpaque i fs)) (.vOpaque i fs) = .ok (some [])) ∧
    jsMatch (.litP .vNull) .vUndef = .ok none ∧
    jsMatch (.litP .vUndef) .vNull = .ok none := by
  refine ⟨?_, ?_, ?_, ?_, rfl, rfl⟩
  · intro v t _
    by_cases h : strictEq v t <;> simp [jsMatch, h]
  · intro v t h
    simp [jsMatch, h]
  · intro i j fs gs hij
    simp [jsMatch, strictEq, hij]
  · intro i fs
    simp [jsMatch, strictEq]

/-- Witness for C4: a boolean literal matching itself, an opaque value
with identity 0 against a field-identical opaque value with identity 1,
and itself. -/
theorem c4_literal_strict_identity_witness :
    (jsMatch (.litP (.vBool true)) (.vBool true) = .ok (some [])
      ↔ strictEq (.vBool true) (.vBool true) = true) ∧
    jsMatch (.litP (.vBool true)) (.vBool false) = .ok none ∧
    jsMatch (.litP (.vOpaque 0 [("a", .vNull)])) (.vOpaque 1 [("a", .vNull)]) = .ok none ∧
    jsMatch (.litP (.vOpaque 0 [("a", .vNull)])) (.vOpaque 0 [("a", .vNull)]) = .ok (some []) :=
  ⟨c4_literal_strict_identity.1 (.vBool true) (.vBool true) rfl,
   c4_literal_strict_identity.2.1 (.vBool true) (.vBool false) rfl,
   c4_literal_strict_identity.2.2.1 0 1 [("a", .vNull)] [("a", .vNull)] (by decide),
   c4_literal_strict_identity.2.2.2.1 0 [("a", .vNull)]⟩

/-- C6.  A record pattern requires every declared key to exist in the
target (a single-field pattern fails on the empty record for every
subpattern) and ignores extra target keys (adding an unrelated field
`k'` to the target changes nothing). -/
theorem c6_record_subset_missing_key :
    (∀ (k : String) (P : Pattern), jsMatch (.objP [(k, P)]) (.vObj []) = .ok none) ∧
    (∀ (k k' : String) (P : Pattern) (v w : Value), k' ≠ k →
      jsMatch (.objP [(k, P)]) (.vObj [(k, v), (k', w)])
        = jsMatch (.objP [(k, P)]) (.vObj [(k, v)])) := by
  refine ⟨fun k P => rfl, ?_⟩
  intro k k' P v w _
  have h1 : lookupField k [(k, v), (k', w)] = some v := by simp [lookupField]
  have h2 : lookupField k [(k, v)] = some v := by simp [lookupField]
  simp only [jsMatch, jsMatchObj, h1, h2]

/-- Witness for C6 at `k = "a"`, `k' = "b"`, an anonymous-placeholder
subpattern and number fields. -/
theorem c6_record_subset_missing_key_witness :
    jsMatch (.objP [("a", .anonP none)]) (.vObj []) = .ok none ∧
    jsMatch (.objP [("a", .anonP none)])
        (.vObj [("a", .vNum (.fin 1)), ("b", .vNum (.fin 2))])
      = jsMatch (.objP [("a", .anonP none)]) (.vObj [("a", .vNum (.fin 1))]) :=
  ⟨c6_record_subset_missing_key.1 "a" (.anonP none),
   c6_record_subset_missing_key.2 "a" "b" (.anonP none) (.vNum (.fin 1)) (.vNum (.fin 2))
     (by decide)⟩

/-- C7.  Capture-map merging is last-write-wins in the fixed traversal
order: the concrete instance `match([x, x], [1, 2]) = (x := 2)` of the
claim; the same for arbitrary values in a sequence (ascending index),
for a two-field record pattern reusing one placeholder name
(field-declaration order), and for a two-gap template reusing one name
(gap order). -/
theorem c7_last_write_wins :
    jsMatch (.arrP [.namedP (.kstr "x") none, .namedP (.kstr "x") none])
        (.vArr [.vNum (.fin 1), .vNum (.fin 2)])
      = .ok (some [(.kstr "x", .vNum (.fin 2))]) ∧
    (∀ (k : SKey) (v₁ v₂ : Value),
      jsMatch (.arrP [.namedP k none, .namedP k none]) (.vArr [v₁, v₂])
        = .ok (some [(k, v₂)])) ∧
    (∀ (a b : String) (k : SKey) (v w : Value), a ≠ b →
      jsMatch (.objP [(a, .namedP k none), (b, .namedP k none)]) (.vObj [(a, v), (b, w)])
        = .ok (some [(k, w)])) ∧
    jsMatch (.templateP false [[], " ".data, []]
        [.namedP (.kstr "x") none, .namedP (.kstr "x") none]) (.vStr "1 2".data)
      = .ok (some [(.kstr "x", .vStr "2".data)]) := by
  refine ⟨rfl, ?_, ?_, rfl⟩
  · intro k v₁ v₂
    simp [jsMatch, jsMatchArr, runTest, assignAll, setKey]
  · intro a b k v w hab
    have h1 : lookupField a [(a, v), (b, w)] = some v := by simp [lookupField]
    have h2 : lookupField b [(a, v), (b, w)] = some w := by
      simp [lookupField, List.find?_cons_of_neg, hab, Ne.symm hab]
    simp [jsMatch, jsMatchObj, h1, h2, runTest, assignAll, setKey]

/-- Witness for C7 with record keys `a ≠ b` and placeholder `x`. -/
theorem c7_last_write_wins_witness :
    jsMatch (.arrP [.namedP (.kstr "x") none, .namedP (.kstr "x") none])
        (.vArr [.vNum (.fin 1), .vNum (.fin 2)])
      = .ok (some [(.kstr "x", .vNum (.fin 2))]) ∧
    jsMatch (.objP [("a", .namedP (.kstr "x") none), ("b", .namedP (.kstr "x") none)])
        (.vObj [("a", .vNum (.fin 1)), ("b", .vNum (.fin 2))])
      = .ok (some [(.kstr "x", .vNum (.fin 2))]) :=
  ⟨c7_last_write_wins.1,
   c7_last_write_wins.2.2.1 "a" "b" (.kstr "x") (.vNum (.fin 1)) (.vNum (.fin 2)) (by decide)⟩

/-- C5.  Sequence patterns match a prefix: any non-array target fails,
an array target shorter than the pattern fails, elements of the target
beyond the pattern's length are irrelevant (truncating the target to
the pattern's length changes nothing, so trailing elements are never
captured), and on a two-element target a one-element pattern behaves
exactly as matching the head alone — same success, same failure, same
exception, same captures. -/
theorem c5_sequence_front_segment :
    (∀ (ps : List Pattern) (t : Value), (∀ vs, t ≠ .vArr vs) →
      jsMatch (.arrP ps) t = .ok none) ∧
    (∀ (ps : List Pattern) (vs : List Value), vs.length < ps.length →
      jsMatch (.arrP ps) (.vArr vs) = .ok none) ∧
    (∀ (ps : List Pattern) (vs : List Value), ps.length ≤ vs.length →
      jsMatch (.arrP ps) (.vArr vs) = jsMatch (.arrP ps) (.vArr (vs.take ps.length))) ∧
    (∀ (P : Pattern) (v₁ v₂ : Value),
      jsMatch (.arrP [P]) (.vArr [v₁, v₂]) = jsMatch P v₁) := by
  refine ⟨?_, ?_, ?_, ?_⟩
  · intro ps t h
    match t with
    | .vArr vs => exact absurd rfl (h vs)
    | .vNull => rfl
    | .vUndef => rfl
    | .vBool _ => rfl
    | .vNum _ => rfl
    | .vStr _ => rfl
    | .vAtom _ => rfl
    | .vObj _ => rfl
    | .vOpaque _ _ => rfl
  · intro ps vs hlen
    simp only [jsMatch]
    rw [if_neg (by omega)]
  · intro ps vs hlen
    simp only [jsMatch]
    rw [if_pos hlen, if_pos (by rw [List.length_take]; omega)]
    exact jsMatchArr_take ps vs [] hlen
  · intro P v₁ v₂
    simp only [jsMatch]
    rw [if_pos (by simp)]
    simp only [jsMatchArr, List.headD_cons, List.tail_cons]
    match h : jsMatch P v₁ with
    | .error e => rfl
    | .ok none => rfl
    | .ok (some m) =>
        simp only [jsMatchArr]
        rw [assignAll_nil (jsMatch_nodup h)]

/-- Witness for C5: the guards discharged at a number target, a short
array, a two-element array against a one-placeholder pattern, and the
claim's `match([P], [v1, v2]) = match(P, v1)` instance. -/
theorem c5_sequence_front_segment_witness :
    jsMatch (.arrP [.anonP none]) (.vNum (.fin 3)) = .ok none ∧
    jsMatch (.arrP [.anonP none, .anonP none]) (.vArr [.vNull]) = .ok none ∧
    jsMatch (.arrP [.anonP none]) (.vArr [.vNull, .vBool true])
      = jsMatch (.arrP [.anonP none]) (.vArr [.vNull]) ∧
    jsMatch (.arrP [.namedP (.kstr "x") none]) (.vArr [.vNull, .vBool true])
      = jsMatch (.namedP (.kstr "x") none) .vNull :=
  ⟨c5_sequence_front_segment.1 [.anonP none] (.vNum (.fin 3)) (fun vs h => by cases h),
   c5_sequence_front_segment.2.1 [.anonP none, .anonP none] [.vNull] (by decide),
   by
     have := c5_sequence_front_segment.2.2.1 [.anonP none] [.vNull, .vBool true] (by decide)
     simpa using this,
   c5_sequence_front_segment.2.2.2 (.namedP (.kstr "x") none) .vNull (.vBool true)⟩

/-- C3.  A record pattern fails on every target that is not
record-shaped in the sense of `is.Record` (not an object, or an
array); on record-shaped targets it matches structurally, so a class
instance (`vOpaque`) is matched exactly like the plain record with the
same fields — same result, same merged captures; in particular, when
every declared field of the pattern finds a matching field in the
instance, the whole match succeeds. -/
theorem c3_record_matches_opaque_structurally :
    (∀ (fs : List (String × Pattern)) (t : Value), isRecordShaped t = false →
      jsMatch (.objP fs) t = .ok none) ∧
    (∀ (fs : List (String × Pattern)) (id : Nat) (tfs : List (String × Value)),
      jsMatch (.objP fs) (.vOpaque id tfs) = jsMatch (.objP fs) (.vObj tfs)) ∧
    (∀ (fs : List (String × Pattern)) (id : Nat) (tfs : List (String × Value)),
      (∀ kp ∈ fs, ∃ tv, lookupField kp.1 tfs = some tv ∧
        ∃ m, jsMatch kp.2 tv = .ok (some m)) →
      ∃ m, jsMatch (.objP fs) (.vOpaque id tfs) = .ok (some m)) := by
  refine ⟨?_, fun fs id tfs => rfl, ?_⟩
  · intro fs t h
    match t with
    | .vNull => rfl
    | .vUndef => rfl
    | .vBool _ => rfl
    | .vNum _ => rfl
    | .vStr _ => rfl
    | .vAtom _ => rfl
    | .vArr _ => rfl
    | .vObj _ => simp [isRecordShaped] at h
    | .vOpaque _ _ => simp [isRecordShaped] at h
  · intro fs id tfs hall
    exact jsMatchObj_succeeds fs tfs [] hall

/-- Witness for C3: a string target fails; the pattern
`(name := placeholder name, age := placeholder age)` matches the class
instance `new User("hello", 123)` (identity 7) with the same captures
as the plain record, and succeeds. -/
theorem c3_record_matches_opaque_structurally_witness :
    jsMatch (.objP [("name", .namedP nameK none)]) (.vStr "hello".data) = .ok none ∧
    jsMatch (.objP [("name", .namedP nameK none), ("age", .namedP ageK none)])
        (.vOpaque 7 [("name", .vStr "hello".data), ("age", .vNum (.fin 123))])
      = jsMatch (.objP [("name", .namedP nameK none), ("age", .namedP ageK none)])
        (.vObj [("name", .vStr "hello".data), ("age", .vNum (.fin 123))]) ∧
    (∃ m, jsMatch (.objP [("name", .namedP nameK none), ("age", .namedP ageK none)])
        (.vOpaque 7 [("name", .vStr "hello".data), ("age", .vNum (.fin 123))])
      = .ok (some m)) :=
  ⟨c3_record_matches_opaque_structurally.1 [("name", .namedP nameK none)]
      (.vStr "hello".data) rfl,
   c3_record_matches_opaque_structurally.2.1
      [("name", .namedP nameK none), ("age", .namedP ageK none)] 7
      [("name", .vStr "hello".data), ("age", .vNum (.fin 123))],
   c3_record_matches_opaque_structurally.2.2
      [("name", .namedP nameK none), ("age", .namedP ageK none)] 7
      [("name", .vStr "hello".data), ("age", .vNum (.fin 123))]
      (by
        intro kp hkp
        rcases List.mem_cons.mp hkp with rfl | hkp
        · exact ⟨.vStr "hello".data, rfl, [(nameK, .vStr "hello".data)], rfl⟩
        · rcases List.mem_cons.mp hkp with rfl | hkp
          · exact ⟨.vNum (.fin 123), rfl, [(ageK, .vNum (.fin 123))], rfl⟩
          · cases hkp)⟩

/-- C8.  A throwing predicate is never downgraded to an ordinary match
failure: matching a guarded placeholder whose guard throws produces the
fatal `.error ()` (not the `undefined` failure `.ok none`), both
directly and when the placeholder sits inside a sequence, a record, or
a template string — the source calls `pattern.test(target)` with no
surrounding try/catch, so the exception escapes `match`. -/
theorem c8_predicate_fault_propagates :
    (∀ (k : SKey) (v : Value), jsMatch (.namedP k (some throwPred)) v = .error ()) ∧
    (∀ v : Value, jsMatch (.anonP (some throwPred)) v = .error ()) ∧
    (∀ (k : SKey) (v : Value) (ps : List Pattern) (vs : List Value),
      ps.length ≤ vs.length →
      jsMatch (.arrP (.namedP k (some throwPred) :: ps)) (.vArr (v :: vs)) = .error ()) ∧
    (∀ (key : String) (k : SKey) (v : Value) (fs : List (String × Pattern))
        (tfs : List (String × Value)),
      jsMatch (.objP ((key, .namedP k (some throwPred)) :: fs))
          (.vObj ((key, v) :: tfs)) = .error ()) ∧
    (∀ k : SKey,
      jsMatch (.templateP false [[], []] [.namedP k (some throwPred)])
        (.vStr "x".data) = .error ()) := by
  refine ⟨fun k v => rfl, fun v => rfl, ?_, ?_, fun k => rfl⟩
  · intro k v ps vs hlen
    simp only [jsMatch]
    rw [if_pos (by simpa using hlen)]
    rfl
  · intro key k v fs tfs
    have h1 : lookupField key ((key, v) :: tfs) = some v := by simp [lookupField]
    simp only [jsMatch, jsMatchObj, h1]
    rfl

/-- Witness for C8: the sequence conjunct applied to a singleton
pattern and target. -/
theorem c8_predicate_fault_propagates_witness :
    jsMatch (.arrP [.namedP (.kstr "x") (some throwPred)]) (.vArr [.vNull]) = .error () :=
  c8_predicate_fault_propagates.2.2.1 (.kstr "x") .vNull [] [] (by decide)
